import Mathlib

/-
Verification development for the TensHash proof-of-work primitive of the
tenscoin repository.

The development shallowly embeds the three source variants:

* `Cached`  — the cached Mode-A evaluator (`src/unnamed/part_000`):
  wrapping-affine cascade with a single-slot static precomputation cache.
* `TestPow` — the standalone Mode-A evaluator (`src/test_pow/tens_hash.c`):
  one-shot entry point plus the hex codec of the CLI harness.
* `ModeB`   — the ternary-weight threshold cascade
  (`src/src/crypto/tens_pow/tens_hash.cpp`).

External cryptographic collaborators (the ChaCha20 stream cipher drawn on by
matrix generation and the SHA-256 digest used for the Mode-A noise vector)
are not part of this repository; they are modelled as explicit oracle
parameters (`ks`, `ks2`, `sha`) threaded through every definition.  Heap
allocation, which the C code performs with `malloc`/`calloc`, is modelled by
boolean allocation oracles: `oracle k` tells whether the k-th allocation
performed by the routine under consideration succeeds.  Machine integers are
modelled with `Nat`/`Int`; the `int32_t` accumulators of the sources never
overflow at the program's dimensions (at most 1024 products of bytes,
about 2^26), so plain `Int` arithmetic is the faithful embedding, with the
final conversion to `uint8_t` made explicit as reduction modulo 256.
-/

/-! Dimensions shared by all variants (IN_SIZE, HIDDEN, ROUNDS in the C
sources; TENS_IN_SIZE, TENS_HIDDEN, NUM_HIDDEN_LAYERS in the C++ one). -/

def IN_SIZE : Nat := 32

def HIDDEN : Nat := 1024

def ROUNDS : Nat := 64

/-- Allocation oracle under which every allocation succeeds. -/
def allocAlways : Nat → Bool := fun _ => true

/-- Conversion of a byte value (0..255) to the signed value obtained by
storing it in an `int8_t`, as `buffers->noise[i] = digest[i % 32]` does. -/
def int8OfByte (b : Nat) : Int :=
  if b % 256 < 128 then (b % 256 : Nat) else (b % 256 : Nat) - 256

/-- Outcome of calling a C routine that may terminate the process:
either a normal return value or a call of `exit` with the given code. -/
inductive CallOutcome (α : Type) where
  | ok (a : α)
  | exited (code : Nat)
deriving DecidableEq

/-- Weight structure shared by the two Mode-A variants (both sources declare
a structurally identical `PrecomputedMatrices`): expansion HIDDEN x IN_SIZE,
ROUNDS middle matrices HIDDEN x HIDDEN, compression IN_SIZE x HIDDEN,
row-major. -/
structure PrecomputedMatrices where
  expand_mat : List (List Nat)
  middle_mats : List (List (List Nat))
  compress_mat : List (List Nat)
deriving DecidableEq

namespace Cached

/-! Shallow embedding of `src/unnamed/part_000` (Mode A, cached). -/

/-- Truncation of the wide signed accumulator to a byte, embedding
`((uint8_t)x) & 0xFF` from lines 14-16: conversion of an `int32_t` to
`uint8_t` is reduction modulo 256, and the following `& 0xFF` is the
identity on a byte. -/
def mod256 (x : Int) : Nat := (x % 256).toNat &&& 255

/-- Layer operation of lines 18-27: `out[i] = mod256(Σ_j A[i][j]*in[j] + e[i])`
for `i < rows`, with the sum accumulated in a wide signed integer. -/
def matrix_multiply (A : List (List Nat)) (inp : List Nat) (e : List Int)
    (rows cols : Nat) : List Nat :=
  (List.range rows).map fun i =>
    mod256 (((List.range cols).map fun j =>
      ((A.getD i []).getD j 0 : Int) * ((inp.getD j 0 : Nat) : Int)).sum
      + e.getD i 0)

/-- Matrix contents written by `generate_all_matrices` (lines 29-80) when its
keystream staging buffer allocation succeeds: one ChaCha20 keystream of
`HIDDEN*IN_SIZE + ROUNDS*HIDDEN*HIDDEN + IN_SIZE*HIDDEN` bytes, keyed by the
seed with a zero nonce and counter 0, is sliced in order into the expansion
matrix (row i at offset `i*IN_SIZE`), the middle matrices (round r row i at
offset `HIDDEN*IN_SIZE + r*HIDDEN*HIDDEN + i*HIDDEN`) and the compression
matrix (row i at offset `HIDDEN*IN_SIZE + ROUNDS*HIDDEN*HIDDEN + i*HIDDEN`),
following the running `curr_pos` pointer of the source.  The cipher itself is
an external collaborator, abstracted as the keystream oracle `ks` mapping
(seed, byte index) to the keystream byte. -/
def generate_all_matrices (ks : List Nat → Nat → Nat) (seed : List Nat) :
    PrecomputedMatrices where
  expand_mat := (List.range HIDDEN).map fun i =>
    (List.range IN_SIZE).map fun j => ks seed (i * IN_SIZE + j)
  middle_mats := (List.range ROUNDS).map fun r =>
    (List.range HIDDEN).map fun i =>
      (List.range HIDDEN).map fun j =>
        ks seed (HIDDEN * IN_SIZE + r * HIDDEN * HIDDEN + i * HIDDEN + j)
  compress_mat := (List.range IN_SIZE).map fun i =>
    (List.range HIDDEN).map fun j =>
      ks seed (HIDDEN * IN_SIZE + ROUNDS * HIDDEN * HIDDEN + i * HIDDEN + j)

/-- Noise value at index i of the buffer filled by `generate_all_noise`
(lines 82-94): the SHA-256 digest of the 32-byte input (the digest function
is external, abstracted as the oracle `sha`) is tiled over the whole buffer;
each byte is stored into an `int8_t` cell. -/
def noiseAt (sha : List Nat → List Nat) (input : List Nat) (i : Nat) : Int :=
  int8OfByte ((sha input).getD (i % 32) 0)

/-- Forward pass of `tens_hash_precomputed` (lines 231-252): fill the noise
buffer from the input digest, run the expansion layer, ROUNDS middle rounds
with ping-pong state buffers (modelled by the fold), then the compression
layer.  Every cell of the scratch buffers is written before it is read, so
the digest is a pure function of the matrices and the input. -/
def tens_hash_precomputed (matrices : PrecomputedMatrices)
    (sha : List Nat → List Nat) (input : List Nat) : List Nat :=
  let noise := noiseAt sha input
  let state := matrix_multiply matrices.expand_mat input
    ((List.range HIDDEN).map fun i => noise i) HIDDEN IN_SIZE
  let state := (List.range ROUNDS).foldl (fun s r =>
    matrix_multiply (matrices.middle_mats.getD r []) s
      ((List.range HIDDEN).map fun i => noise (HIDDEN + r * HIDDEN + i))
      HIDDEN HIDDEN) state
  matrix_multiply matrices.compress_mat state
    ((List.range IN_SIZE).map fun i => noise (HIDDEN + ROUNDS * HIDDEN + i))
    IN_SIZE HIDDEN

/-- Number of structure allocations performed by `precompute_matrices`
(lines 126-206) before `generate_all_matrices` is called: the struct, the
expansion row-pointer array and its HIDDEN rows, per round one row-pointer
array and HIDDEN rows, and the compression row-pointer array and its
IN_SIZE rows. -/
def numStructAllocs : Nat :=
  1 + 1 + HIDDEN + ROUNDS * (1 + HIDDEN) + 1 + IN_SIZE

/-- Embedding of `precompute_matrices` (lines 126-206).  The k-th `malloc`
succeeds iff `oracle k`; if any of the `numStructAllocs` structure
allocations fails, every partial allocation is freed and NULL (`none`) is
returned.  Otherwise `generate_all_matrices` is called: its own staging
buffer is allocation number `numStructAllocs`, and when that one fails the
routine silently returns, leaving the (successfully allocated) matrices
holding uninitialized memory — modelled by the `junk` parameter. -/
def precompute_matrices (oracle : Nat → Bool) (ks : List Nat → Nat → Nat)
    (seed : List Nat) (junk : PrecomputedMatrices) :
    Option PrecomputedMatrices :=
  if ((List.range numStructAllocs).all oracle) = true then
    some (if oracle numStructAllocs = true then generate_all_matrices ks seed
          else junk)
  else none

/-- Embedding of `init_hash_buffers` (lines 96-115): four allocations (the
struct, the two HIDDEN-byte state vectors and the noise vector); the routine
returns NULL (`false`) iff any of them fails.  The contents of the buffers
are irrelevant: every cell is overwritten before being read by
`tens_hash_precomputed`, so only their presence is modelled. -/
def init_hash_buffers (oracle : Nat → Bool) : Bool :=
  (List.range 4).all oracle

/-- State of the static single-slot cache of `tens_hash` (lines 263-267):
`cacheInitialized`, `cachedSeed`, `cachedMatrices`, `cachedBuffers`. -/
structure TensCache where
  cacheInitialized : Bool
  cachedSeed : List Nat
  cachedMatrices : Option PrecomputedMatrices
  cachedBuffers : Bool
deriving DecidableEq

/-- One call of the cached `tens_hash` (lines 254-308), with the static cache
made an explicit state.  If the cache is initialized and the requested seed
is byte-for-byte equal (`memcmp`) to the cached one, the resident entry is
reused; otherwise the old entry is freed, the cached seed is overwritten
with the requested one, the cache is marked initialized, and fresh matrices
and buffers are built (each allocation possibly failing).  If either
component is missing the call returns without writing the output (`none`);
otherwise it returns the digest computed by `tens_hash_precomputed`. -/
def tens_hash_step (mo bo : Nat → Bool) (ks : List Nat → Nat → Nat)
    (sha : List Nat → List Nat) (st : TensCache) (seed input : List Nat)
    (junk : PrecomputedMatrices) : Option (List Nat) × TensCache :=
  let st' :=
    if st.cacheInitialized = true ∧ st.cachedSeed = seed then st
    else ⟨true, seed, precompute_matrices mo ks seed junk,
          init_hash_buffers bo⟩
  (match st'.cachedMatrices, st'.cachedBuffers with
   | some m, true => some (tens_hash_precomputed m sha input)
   | _, _ => none,
   st')

/-- Digest delivered by a successful cached evaluation: the pure function of
(seed, input) computed by the forward pass over the seed's matrices. -/
def tens_hash_pure (ks : List Nat → Nat → Nat) (sha : List Nat → List Nat)
    (seed input : List Nat) : List Nat :=
  tens_hash_precomputed (generate_all_matrices ks seed) sha input

/-- Consistency of a cache state with the keystream oracle: whenever the
slot is initialized, it holds exactly the matrices generated for the cached
seed together with allocated buffers.  Every state reached from a cold cache
through calls whose allocations succeed satisfies this. -/
def CacheGood (ks : List Nat → Nat → Nat) (st : TensCache) : Prop :=
  st.cacheInitialized = true →
    st.cachedMatrices = some (generate_all_matrices ks st.cachedSeed) ∧
    st.cachedBuffers = true

/-- Cold cache: the state before the first call. -/
def coldCache : TensCache := ⟨false, [], none, false⟩

end Cached

namespace TestPow

/-! Shallow embedding of `src/test_pow/tens_hash.c` (Mode A, one-shot). -/

/-- Layer operation of lines 49-58, identical to the cached variant's with
the byte truncation `((uint8_t)sum) & 0xFF` written inline. -/
def matrix_multiply (A : List (List Nat)) (inp : List Nat) (e : List Int)
    (rows cols : Nat) : List Nat :=
  (List.range rows).map fun i =>
    (((((List.range cols).map fun j =>
      ((A.getD i []).getD j 0 : Int) * ((inp.getD j 0 : Nat) : Int)).sum
      + e.getD i 0) % 256).toNat) &&& 255

/-- Matrix contents written by `generate_matrices` (lines 65-89) when its
staging buffer allocation succeeds: one ChaCha20 keystream (libsodium
`crypto_stream_chacha20`, seed as key, fixed all-zero nonce) of the total
size, block-copied into the flat expansion, middle and compression buffers
whose row pointers are `base + row*cols`.  The resulting coefficient at each
(matrix, row, column) position is the keystream byte at the same offsets as
in the cached variant. -/
def generate_matrices (ks : List Nat → Nat → Nat) (seed : List Nat) :
    PrecomputedMatrices where
  expand_mat := (List.range HIDDEN).map fun i =>
    (List.range IN_SIZE).map fun j => ks seed (i * IN_SIZE + j)
  middle_mats := (List.range ROUNDS).map fun r =>
    (List.range HIDDEN).map fun i =>
      (List.range HIDDEN).map fun j =>
        ks seed (HIDDEN * IN_SIZE + r * HIDDEN * HIDDEN + i * HIDDEN + j)
  compress_mat := (List.range IN_SIZE).map fun i =>
    (List.range HIDDEN).map fun j =>
      ks seed (HIDDEN * IN_SIZE + ROUNDS * HIDDEN * HIDDEN + i * HIDDEN + j)

/-- Forward pass of `tens_hash_precomputed` (lines 95-125): SHA-256 digest of
the input tiled over the noise buffer, expansion layer, ROUNDS ping-pong
middle rounds, compression layer; line-for-line the same pipeline as the
cached variant's. -/
def tens_hash_precomputed (matrices : PrecomputedMatrices)
    (sha : List Nat → List Nat) (input : List Nat) : List Nat :=
  let noise := Cached.noiseAt sha input
  let state := matrix_multiply matrices.expand_mat input
    ((List.range HIDDEN).map fun i => noise i) HIDDEN IN_SIZE
  let state := (List.range ROUNDS).foldl (fun s r =>
    matrix_multiply (matrices.middle_mats.getD r []) s
      ((List.range HIDDEN).map fun i => noise (HIDDEN + r * HIDDEN + i))
      HIDDEN HIDDEN) state
  matrix_multiply matrices.compress_mat state
    ((List.range IN_SIZE).map fun i => noise (HIDDEN + ROUNDS * HIDDEN + i))
    IN_SIZE HIDDEN

/-- Number of structure allocations performed by `precompute_matrices`
(lines 157-231) before `generate_matrices` is called: the struct, the
expansion row-pointer array and its one flat block, per round one
row-pointer array and one flat block, and the compression row-pointer array
and its flat block. -/
def numStructAllocs : Nat := 1 + 1 + 1 + ROUNDS * 2 + 1 + 1

/-- Embedding of `precompute_matrices` (lines 157-231).  A failure among the
structure allocations frees everything allocated so far and returns NULL
(`.ok none`).  Otherwise `generate_matrices` runs; if its staging buffer
allocation (number `numStructAllocs`) fails it prints an error and calls
`exit(1)`, terminating the process (`.exited 1`). -/
def precompute_matrices (oracle : Nat → Bool) (ks : List Nat → Nat → Nat)
    (seed : List Nat) : CallOutcome (Option PrecomputedMatrices) :=
  if ((List.range numStructAllocs).all oracle) = true then
    if oracle numStructAllocs = true then
      CallOutcome.ok (some (generate_matrices ks seed))
    else CallOutcome.exited 1
  else CallOutcome.ok none

/-- Embedding of `init_hash_buffers` (lines 258-273): four allocations, NULL
(`false`) iff any fails; buffer contents are overwritten before use and are
not modelled. -/
def init_hash_buffers (oracle : Nat → Bool) : Bool :=
  (List.range 4).all oracle

/-- One-shot `tens_hash` (lines 132-149): build transient matrices and
buffers, evaluate once, release everything.  A NULL from either constructor
makes it print an error and call `exit(1)`. -/
def tens_hash (mo bo : Nat → Bool) (ks : List Nat → Nat → Nat)
    (sha : List Nat → List Nat) (seed input : List Nat) :
    CallOutcome (List Nat) :=
  match precompute_matrices mo ks seed with
  | CallOutcome.exited c => CallOutcome.exited c
  | CallOutcome.ok none => CallOutcome.exited 1
  | CallOutcome.ok (some m) =>
      if init_hash_buffers bo = true then
        CallOutcome.ok (tens_hash_precomputed m sha input)
      else CallOutcome.exited 1

/-- Embedding of `hexchar_to_int` (lines 290-298). -/
def hexchar_to_int (c : Char) : Int :=
  if '0' ≤ c ∧ c ≤ '9' then (c.toNat : Int) - ('0'.toNat : Int)
  else if 'a' ≤ c ∧ c ≤ 'f' then (c.toNat : Int) - ('a'.toNat : Int) + 10
  else if 'A' ≤ c ∧ c ≤ 'F' then (c.toNat : Int) - ('A'.toNat : Int) + 10
  else -1

/-- Loop of `parse_hex` (lines 305-311), with `rem` the number of output
bytes still to decode (the C loop variable is `i`, with `rem = out_len - i`).
Each step reads the two hex digits of pair i; an invalid digit aborts with
-1, leaving the bytes already stored in `out` in place. -/
def parse_hex_from (hex : List Char) (out : List Nat) (i : Nat) :
    Nat → Int × List Nat
  | 0 => (0, out)
  | rem + 1 =>
      let hi := hexchar_to_int (hex.getD (2 * i) ' ')
      let lo := hexchar_to_int (hex.getD (2 * i + 1) ' ')
      if hi < 0 ∨ lo < 0 then (-1, out)
      else parse_hex_from hex
        (out.set i ((hi.toNat <<< 4) ||| lo.toNat)) (i + 1) rem

/-- Embedding of `parse_hex` (lines 302-313): reject unless the hex string
has exactly `out_len * 2` characters, then decode pair by pair.  The result
is the returned code together with the final contents of the output
buffer. -/
def parse_hex (hex : List Char) (out : List Nat) (out_len : Nat) :
    Int × List Nat :=
  if hex.length ≠ out_len * 2 then (-1, out)
  else parse_hex_from hex out 0 out_len

end TestPow

namespace ModeB

/-! Shallow embedding of `src/src/crypto/tens_pow/tens_hash.cpp` (ternary
threshold cascade).  In that file TENS_HIDDEN = 1024 = HIDDEN and
NUM_HIDDEN_LAYERS = 64 = ROUNDS. -/

/-- Bit count of the input vector, `INPUT_BITS` of the source. -/
def INPUT_BITS : Nat := IN_SIZE * 8

/-- Ternary mapping of one keystream byte, lines 49-59: byte mod 4 equal to
0 or 1 gives weight 0, equal 2 gives +1, equal 3 gives -1. -/
def ternaryOfByte (b : Nat) : Int :=
  if b % 4 = 0 ∨ b % 4 = 1 then 0 else if b % 4 = 2 then 1 else -1

/-- Embedding of `generate_dense_matrix` (lines 28-60): rows*cols keystream
bytes drawn from ChaCha20 keyed by the seed with the 96-bit nonce holding
`nonce_counter` (distinct per stage) and block counter 0, each mapped to a
ternary weight.  The cipher is external, abstracted as the oracle `ks2`
mapping (seed, nonce counter, byte index) to the keystream byte. -/
def generate_dense_matrix (ks2 : List Nat → Nat → Nat → Nat)
    (rows cols : Nat) (seed : List Nat) (nonce : Nat) : List Int :=
  (List.range (rows * cols)).map fun i => ternaryOfByte (ks2 seed nonce i)

/-- Matrix buffers of `TensHashContext` (flat, row-major). -/
structure TensHashContext where
  expansion_mat : List Int
  hidden_mats : List Int
  compression_mat : List Int
deriving DecidableEq

/-- Embedding of `generate_all_matrices` (lines 72-91): expansion matrix
with nonce counter 0, the hidden matrices with nonce counters 1..ROUNDS
stored consecutively in one flat buffer, compression matrix with nonce
counter ROUNDS+1. -/
def generate_all_matrices (ks2 : List Nat → Nat → Nat → Nat)
    (seed : List Nat) : TensHashContext where
  expansion_mat := generate_dense_matrix ks2 HIDDEN INPUT_BITS seed 0
  hidden_mats := ((List.range ROUNDS).map fun r =>
    generate_dense_matrix ks2 HIDDEN HIDDEN seed (1 + r)).flatten
  compression_mat := generate_dense_matrix ks2 INPUT_BITS HIDDEN seed
    (1 + ROUNDS)

/-- Embedding of `tens_hash_init` (lines 154-180), matrix contents only: the
externally supplied seed is byte-reversed (LSB-first to MSB-first) before
matrix generation. -/
def tens_hash_init (ks2 : List Nat → Nat → Nat → Nat) (seed : List Nat) :
    TensHashContext :=
  generate_all_matrices ks2
    ((List.range IN_SIZE).map fun i => seed.getD (IN_SIZE - 1 - i) 0)

/-- Embedding of `layer_forward` (lines 99-122): map the 0/1 input to -1/+1
via `2*b - 1`, take for each output index the plain signed dot product of
the corresponding weight row with the mapped input, add the mapped input's
j-th element as a residual exactly when the dimensions match, and threshold
strictly at zero. -/
def layer_forward (matrix : List Int) (in_dim out_dim : Nat)
    (input : List Int) : List Int :=
  let x_mapped := (List.range in_dim).map fun i => 2 * input.getD i 0 - 1
  (List.range out_dim).map fun j =>
    let s := ((List.range in_dim).map fun i =>
      matrix.getD (j * in_dim + i) 0 * x_mapped.getD i 0).sum
    let s := if in_dim = out_dim then s + x_mapped.getD j 0 else s
    if 0 < s then (1 : Int) else 0

/-- Embedding of `pack_bits` (lines 125-132): start from 32 zero bytes and,
for each of the 256 bit positions in order, OR bit `7 - i % 8` of byte
`i / 8` in when the i-th entry is nonzero. -/
def pack_bits (bits : List Int) : List Nat :=
  (List.range INPUT_BITS).foldl (fun out i =>
    if bits.getD i 0 ≠ 0 then
      out.set (i / 8) (out.getD (i / 8) 0 ||| (1 <<< (7 - i % 8)))
    else out) (List.replicate IN_SIZE 0)

/-- Cascade portion of `tens_hash_precomputed` (lines 224-244): expansion
layer 256 to 1024, ROUNDS hidden layers 1024 to 1024 over the flat hidden
buffer (round r starting at offset r*HIDDEN*HIDDEN) with ping-pong state
modelled by the fold, then compression 1024 to 256. -/
def run_layers (ctx : TensHashContext) (bits : List Int) : List Int :=
  let state := layer_forward ctx.expansion_mat INPUT_BITS HIDDEN bits
  let state := (List.range ROUNDS).foldl (fun s r =>
    layer_forward (ctx.hidden_mats.drop (r * (HIDDEN * HIDDEN)))
      HIDDEN HIDDEN s) state
  layer_forward ctx.compression_mat HIDDEN INPUT_BITS state

/-- Embedding of `tens_hash_precomputed` (lines 200-260): byte-reverse the
input (LSB-first external convention to MSB-first), unpack it into 256 bits
most-significant-bit-first (`state[i*8+j] = (input_swapped[i] >> (7-j)) & 1`,
here indexed by `t = i*8 + j`), run the cascade, pack the final 256 bits
most-significant-bit-first into 32 bytes, and byte-reverse the packed result
before returning it. -/
def tens_hash_precomputed (ctx : TensHashContext) (input : List Nat) :
    List Nat :=
  let input_swapped := (List.range IN_SIZE).map fun i =>
    input.getD (IN_SIZE - 1 - i) 0
  let bits : List Int := (List.range INPUT_BITS).map fun t =>
    (((input_swapped.getD (t / 8) 0) >>> (7 - t % 8)) &&& 1 : Nat)
  let final_state := run_layers ctx bits
  let packed := pack_bits final_state
  (List.range IN_SIZE).map fun i => packed.getD (IN_SIZE - 1 - i) 0

/-- Spec-side description of the bit unpacking, following the words of the
specification (byte t/8, bit 7 - t mod 8, most-significant-bit-first),
stated with `Nat.testBit`; compared against the evaluator's inline unpack
loop in the refinement theorem for the byte/bit-order claim. -/
def unpackBitsSpec (bytes : List Nat) : List Int :=
  (List.range INPUT_BITS).map fun t =>
    if Nat.testBit (bytes.getD (t / 8) 0) (7 - t % 8) then 1 else 0

end ModeB

/-- Oracle values for matrix generation, shared by several claims below. -/
def ks0 : List Nat → Nat → Nat := fun _ _ => 0

/-- Oracle values for the input digest, shared by several claims below. -/
def sha0 : List Nat → List Nat := fun _ => []

/-- Empty matrix structure used as the model of uninitialized memory. -/
def junk0 : PrecomputedMatrices := ⟨[], [], []⟩

/-- Accumulation step of `pack_bits`, named for the prefix induction. -/
def packStep (bits : List Int) : List Nat → Nat → List Nat :=
  fun out i =>
    if bits.getD i 0 ≠ 0 then
      out.set (i / 8) (out.getD (i / 8) 0 ||| (1 <<< (7 - i % 8)))
    else out


/-! Generic list lemmas used throughout. -/

theorem getD_range_map {α : Type} (f : Nat → α) (n i : Nat) (d : α) :
    ((List.range n).map f).getD i d = if i < n then f i else d := by
  by_cases h : i < n
  · rw [List.getD_eq_getElem?_getD]
    rw [List.getElem?_map]
    rw [List.getElem?_range h]
    simp [h]
  · have hnone : (List.range n)[i]? = none := by
      rw [List.getElem?_eq_none]
      simpa using Nat.le_of_not_lt h
    rw [List.getD_eq_getElem?_getD, List.getElem?_map, hnone]
    simp [h]

theorem sum_range_map (f : Nat → Int) (n : Nat) :
    ((List.range n).map f).sum = ∑ j ∈ Finset.range n, f j := by
  induction n with
  | zero => simp
  | succ m ih =>
      rw [List.range_succ, List.map_append, List.sum_append,
        Finset.sum_range_succ, ih]
      simp


/-! Helper lemmas about the byte truncation. -/

theorem toNat_emod256_lt (x : Int) : (x % 256).toNat < 256 := by
  have h1 : (0 : Int) ≤ x % 256 := Int.emod_nonneg x (by norm_num)
  have h2 : x % 256 < 256 := Int.emod_lt_of_pos x (by norm_num)
  omega

theorem and255_eq_self {a : Nat} (h : a < 256) : a &&& 255 = a := by
  have h255 : (255 : Nat) = 2 ^ 8 - 1 := rfl
  rw [h255, Nat.and_pow_two_sub_one_eq_mod, Nat.mod_eq_of_lt h]

theorem mod256_eq (x : Int) : Cached.mod256 x = (x % 256).toNat := by
  unfold Cached.mod256
  exact and255_eq_self (toNat_emod256_lt x)

theorem mod256_lt (x : Int) : Cached.mod256 x < 256 := by
  rw [mod256_eq]
  exact toNat_emod256_lt x

/-- C5: In Mode A, for every rows-by-cols matrix A, input vector in, noise
slice e, and every output index i, the layer operation produces out[i] equal
to the low 8 bits of the sum over j of A[i][j]*in[j] plus e[i], with the sum
accumulated in a wide signed integer and reduced by modulo-256 wraparound
(not saturation): the output byte is the nonnegative residue modulo 256 of
the signed accumulator, hence in particular below 256 rather than clamped. -/
theorem C5_matrix_multiply_wraps (A : List (List Nat)) (inp : List Nat)
    (e : List Int) (rows cols i : Nat) (hi : i < rows) :
    (Cached.matrix_multiply A inp e rows cols).getD i 0 =
      (((∑ j ∈ Finset.range cols,
          ((A.getD i []).getD j 0 : Int) * ((inp.getD j 0 : Nat) : Int))
        + e.getD i 0) % 256).toNat ∧
    (Cached.matrix_multiply A inp e rows cols).getD i 0 < 256 := by
  unfold Cached.matrix_multiply
  rw [getD_range_map, if_pos hi, sum_range_map, mod256_eq]
  exact ⟨rfl, toNat_emod256_lt _⟩

/-- Closed witness for `C5_matrix_multiply_wraps` at a concrete layer: one
row, one column, A = [[3]], in = [2], e = [-10]; the accumulator is -4 and
the output byte its wraparound 252. -/
theorem C5_matrix_multiply_wraps_witness :
    (Cached.matrix_multiply [[3]] [2] [-10] 1 1).getD 0 0 =
      (((∑ j ∈ Finset.range 1,
          (([[3]].getD 0 []).getD j 0 : Int) * ((([2] : List Nat).getD j 0 : Nat) : Int))
        + ([-10] : List Int).getD 0 0) % 256).toNat ∧
    (Cached.matrix_multiply [[3]] [2] [-10] 1 1).getD 0 0 < 256 :=
  C5_matrix_multiply_wraps [[3]] [2] [-10] 1 1 0 (by decide)

/-- C6: In Mode B, every layer with dimensions d_in to d_out maps each input
bit b to 2b-1 (0 to -1, 1 to +1), computes for each output index j the plain
signed integer dot product of ternary weight row j with the mapped input (no
noise term), adds the mapped input's j-th element before thresholding if and
only if d_in equals d_out, and emits output bit 1 exactly when the
accumulator is strictly greater than 0, with ties resolving to 0. -/
theorem C6_layer_forward_threshold (M : List Int) (din dout : Nat)
    (inp : List Int) (j : Nat) (hj : j < dout) :
    (ModeB.layer_forward M din dout inp).getD j 0 =
      (if 0 < (∑ i ∈ Finset.range din,
                M.getD (j * din + i) 0 * (2 * inp.getD i 0 - 1))
              + (if din = dout then 2 * inp.getD j 0 - 1 else 0)
       then 1 else 0) ∧
    ((∑ i ∈ Finset.range din, M.getD (j * din + i) 0 * (2 * inp.getD i 0 - 1))
        + (if din = dout then 2 * inp.getD j 0 - 1 else 0) ≤ 0 →
      (ModeB.layer_forward M din dout inp).getD j 0 = 0) := by
  have key : (ModeB.layer_forward M din dout inp).getD j 0 =
      (if 0 < (∑ i ∈ Finset.range din,
                M.getD (j * din + i) 0 * (2 * inp.getD i 0 - 1))
              + (if din = dout then 2 * inp.getD j 0 - 1 else 0)
       then 1 else 0) := by
    unfold ModeB.layer_forward
    rw [getD_range_map, if_pos hj]
    dsimp only
    rw [sum_range_map]
    have hsum : ∀ i ∈ Finset.range din,
        M.getD (j * din + i) 0 *
          (((List.range din).map fun k => 2 * inp.getD k 0 - 1).getD i 0) =
        M.getD (j * din + i) 0 * (2 * inp.getD i 0 - 1) := by
      intro i hi
      rw [getD_range_map, if_pos (Finset.mem_range.mp hi)]
    rw [Finset.sum_congr rfl hsum]
    by_cases hdd : din = dout
    · rw [if_pos hdd, if_pos hdd, getD_range_map,
        if_pos (hdd ▸ hj : j < din)]
    · rw [if_neg hdd, if_neg hdd, add_zero]
  refine ⟨key, fun hle => ?_⟩
  rw [key, if_neg (by omega)]

/-- Closed witness for `C6_layer_forward_threshold` at a concrete middle-type
layer: d_in = d_out = 2, weight row [1, -1] for output 0, input bits [1, 0];
the dot product is 2, the residual is +1, the accumulator 3 is positive and
the output bit is 1. -/
theorem C6_layer_forward_threshold_witness :
    (ModeB.layer_forward [1, -1, 0, 0] 2 2 [1, 0]).getD 0 0 =
      (if 0 < (∑ i ∈ Finset.range 2,
                ([1, -1, 0, 0] : List Int).getD (0 * 2 + i) 0 *
                  (2 * ([1, 0] : List Int).getD i 0 - 1))
              + (if 2 = 2 then 2 * ([1, 0] : List Int).getD 0 0 - 1 else 0)
       then 1 else 0) ∧
    ((∑ i ∈ Finset.range 2,
        ([1, -1, 0, 0] : List Int).getD (0 * 2 + i) 0 *
          (2 * ([1, 0] : List Int).getD i 0 - 1))
        + (if 2 = 2 then 2 * ([1, 0] : List Int).getD 0 0 - 1 else 0) ≤ 0 →
      (ModeB.layer_forward [1, -1, 0, 0] 2 2 [1, 0]).getD 0 0 = 0) :=
  C6_layer_forward_threshold [1, -1, 0, 0] 2 2 [1, 0] 0 (by decide)

/-! Helper lemmas about the cached path under always-succeeding allocation. -/

theorem precompute_matrices_allocAlways (ks : List Nat → Nat → Nat)
    (seed : List Nat) (junk : PrecomputedMatrices) :
    Cached.precompute_matrices allocAlways ks seed junk =
      some (Cached.generate_all_matrices ks seed) := by
  have h1 : ((List.range Cached.numStructAllocs).all allocAlways) = true :=
    List.all_eq_true.mpr fun x _ => rfl
  unfold Cached.precompute_matrices
  rw [if_pos h1,
    if_pos (show allocAlways Cached.numStructAllocs = true from rfl)]

theorem init_hash_buffers_allocAlways :
    Cached.init_hash_buffers allocAlways = true := by
  decide

theorem tens_hash_step_allocAlways (ks : List Nat → Nat → Nat)
    (sha : List Nat → List Nat) (st : Cached.TensCache)
    (seed input : List Nat) (junk : PrecomputedMatrices)
    (hst : Cached.CacheGood ks st) :
    Cached.tens_hash_step allocAlways allocAlways ks sha st seed input junk =
      (some (Cached.tens_hash_pure ks sha seed input),
       if st.cacheInitialized = true ∧ st.cachedSeed = seed then st
       else ⟨true, seed, some (Cached.generate_all_matrices ks seed), true⟩) := by
  unfold Cached.tens_hash_step
  by_cases h : st.cacheInitialized = true ∧ st.cachedSeed = seed
  · obtain ⟨hm, hb⟩ := hst h.1
    rw [if_pos h, if_pos h]
    dsimp only
    rw [hm, hb, h.2]
    rfl
  · rw [if_neg h, if_neg h]
    dsimp only
    rw [precompute_matrices_allocAlways, init_hash_buffers_allocAlways]
    rfl

theorem tens_hash_step_allocAlways_out (ks : List Nat → Nat → Nat)
    (sha : List Nat → List Nat) (st : Cached.TensCache)
    (seed input : List Nat) (junk : PrecomputedMatrices)
    (hst : Cached.CacheGood ks st) :
    (Cached.tens_hash_step allocAlways allocAlways ks sha st seed input
      junk).1 = some (Cached.tens_hash_pure ks sha seed input) := by
  rw [tens_hash_step_allocAlways ks sha st seed input junk hst]

theorem tens_hash_step_allocAlways_good (ks : List Nat → Nat → Nat)
    (sha : List Nat → List Nat) (st : Cached.TensCache)
    (seed input : List Nat) (junk : PrecomputedMatrices)
    (hst : Cached.CacheGood ks st) :
    Cached.CacheGood ks
      (Cached.tens_hash_step allocAlways allocAlways ks sha st seed input
        junk).2 := by
  rw [tens_hash_step_allocAlways ks sha st seed input junk hst]
  by_cases h : st.cacheInitialized = true ∧ st.cachedSeed = seed
  · rw [if_pos h]
    exact hst
  · rw [if_neg h]
    intro _
    exact ⟨rfl, rfl⟩

theorem coldCache_good (ks : List Nat → Nat → Nat) :
    Cached.CacheGood ks Cached.coldCache := by
  intro h
  cases h

theorem tens_hash_step_state (mo bo : Nat → Bool) (ks : List Nat → Nat → Nat)
    (sha : List Nat → List Nat) (st : Cached.TensCache)
    (seed input : List Nat) (junk : PrecomputedMatrices) :
    (Cached.tens_hash_step mo bo ks sha st seed input junk).2 =
      if st.cacheInitialized = true ∧ st.cachedSeed = seed then st
      else ⟨true, seed, Cached.precompute_matrices mo ks seed junk,
            Cached.init_hash_buffers bo⟩ :=
  rfl

theorem tens_hash_pure_length (ks : List Nat → Nat → Nat)
    (sha : List Nat → List Nat) (seed input : List Nat) :
    (Cached.tens_hash_pure ks sha seed input).length = 32 := by
  unfold Cached.tens_hash_pure Cached.tens_hash_precomputed
  dsimp only
  unfold Cached.matrix_multiply
  rw [List.length_map, List.length_range]
  rfl

/-- C1: For every fixed (seed, input, mode), Evaluate returns identical
32-byte output across repeated calls and across cold-cache/warm-cache
conditions; in particular, for seeds A and B with B different from A and
inputs x and y, the sequence Evaluate(A, x), Evaluate(B, y), Evaluate(A, x)
returns for the third call exactly the digest of the first call — eviction
and repopulation never change the result.  States range over the
cache-consistent states (`CacheGood`), exactly those reachable by the code
in executions whose allocations succeed (`allocAlways`). -/
theorem C1_evaluate_deterministic_cache_transparent
    (ks : List Nat → Nat → Nat) (sha : List Nat → List Nat)
    (junk : PrecomputedMatrices) (st : Cached.TensCache)
    (A x B y : List Nat) (hAB : A ≠ B) (hst : Cached.CacheGood ks st) :
    (Cached.tens_hash_step allocAlways allocAlways ks sha st A x junk).1 =
      some (Cached.tens_hash_pure ks sha A x) ∧
    (Cached.tens_hash_step allocAlways allocAlways ks sha
       (Cached.tens_hash_step allocAlways allocAlways ks sha
         (Cached.tens_hash_step allocAlways allocAlways ks sha st A x
           junk).2 B y junk).2 A x junk).1 =
      (Cached.tens_hash_step allocAlways allocAlways ks sha st A x junk).1 ∧
    (∀ st2, Cached.CacheGood ks st2 →
      (Cached.tens_hash_step allocAlways allocAlways ks sha st2 A x
        junk).1 =
      (Cached.tens_hash_step allocAlways allocAlways ks sha st A x
        junk).1) ∧
    (Cached.tens_hash_pure ks sha A x).length = 32 := by
  have h1 := tens_hash_step_allocAlways_out ks sha st A x junk hst
  have g1 := tens_hash_step_allocAlways_good ks sha st A x junk hst
  have g2 := tens_hash_step_allocAlways_good ks sha _ B y junk g1
  have h3 := tens_hash_step_allocAlways_out ks sha _ A x junk g2
  refine ⟨h1, by rw [h3, h1], fun st2 h2 => ?_,
    tens_hash_pure_length ks sha A x⟩
  rw [tens_hash_step_allocAlways_out ks sha st2 A x junk h2, h1]

/-- Closed witness for `C1_evaluate_deterministic_cache_transparent`: the
three-call sequence starting from the cold cache with two concrete distinct
seeds returns for the third call the digest of the first. -/
theorem C1_evaluate_deterministic_cache_transparent_witness :
    (Cached.tens_hash_step allocAlways allocAlways ks0 sha0
       (Cached.tens_hash_step allocAlways allocAlways ks0 sha0
         (Cached.tens_hash_step allocAlways allocAlways ks0 sha0
           Cached.coldCache (List.replicate 32 0) (List.replicate 32 0)
           junk0).2 (List.replicate 32 1) (List.replicate 32 2) junk0).2
       (List.replicate 32 0) (List.replicate 32 0) junk0).1 =
      (Cached.tens_hash_step allocAlways allocAlways ks0 sha0
        Cached.coldCache (List.replicate 32 0) (List.replicate 32 0)
        junk0).1 :=
  (C1_evaluate_deterministic_cache_transparent ks0 sha0 junk0
    Cached.coldCache (List.replicate 32 0) (List.replicate 32 0)
    (List.replicate 32 1) (List.replicate 32 2) (by decide)
    (coldCache_good ks0)).2.1

/-- C2: The precomputation cache holds at most one resident entry (the
single slot of `TensCache`); on every call, if the requested seed is
byte-for-byte equal to the cached seed the resident matrices and buffers
are reused unchanged (the state is exactly the old one and the digest is
computed from the resident matrices), and otherwise the post-state is
exactly the single fresh entry built for the new seed — the old entry is
discarded and matrices for two different seeds are never resident. -/
theorem C2_cache_reuse_or_rebuild (mo bo : Nat → Bool)
    (ks : List Nat → Nat → Nat) (sha : List Nat → List Nat)
    (junk : PrecomputedMatrices) (st : Cached.TensCache)
    (seed input : List Nat) :
    (st.cacheInitialized = true ∧ st.cachedSeed = seed →
      (Cached.tens_hash_step mo bo ks sha st seed input junk).2 = st ∧
      (∀ m, st.cachedMatrices = some m → st.cachedBuffers = true →
        (Cached.tens_hash_step mo bo ks sha st seed input junk).1 =
          some (Cached.tens_hash_precomputed m sha input))) ∧
    (¬(st.cacheInitialized = true ∧ st.cachedSeed = seed) →
      (Cached.tens_hash_step mo bo ks sha st seed input junk).2 =
        ⟨true, seed, Cached.precompute_matrices mo ks seed junk,
         Cached.init_hash_buffers bo⟩) := by
  constructor
  · intro h
    constructor
    · rw [tens_hash_step_state, if_pos h]
    · intro m hm hb
      unfold Cached.tens_hash_step
      rw [if_pos h]
      dsimp only
      rw [hm, hb]
  · intro h
    rw [tens_hash_step_state, if_neg h]

/-- Closed witness for `C2_cache_reuse_or_rebuild`: a populated concrete
cache state receiving its own seed is left unchanged, and the resident
matrices produce the digest. -/
theorem C2_cache_reuse_or_rebuild_witness :
    (Cached.tens_hash_step allocAlways allocAlways ks0 sha0
      ⟨true, List.replicate 32 7, some junk0, true⟩
      (List.replicate 32 7) (List.replicate 32 3) junk0).2 =
      ⟨true, List.replicate 32 7, some junk0, true⟩ ∧
    (Cached.tens_hash_step allocAlways allocAlways ks0 sha0
      ⟨true, List.replicate 32 7, some junk0, true⟩
      (List.replicate 32 7) (List.replicate 32 3) junk0).1 =
      some (Cached.tens_hash_precomputed junk0 sha0 (List.replicate 32 3)) :=
  have h := (C2_cache_reuse_or_rebuild allocAlways allocAlways ks0 sha0
    junk0 ⟨true, List.replicate 32 7, some junk0, true⟩
    (List.replicate 32 7) (List.replicate 32 3)).1 ⟨rfl, rfl⟩
  ⟨h.1, h.2 junk0 rfl rfl⟩

/-- C10: In the cached path the cached seed is overwritten with the
requested seed before allocation is attempted; consequently, if allocation
fails for a seed s, the call returns without writing the caller's output
buffer (`none`), and every subsequent call with the same seed s — under any
allocation oracles, even ones that would now succeed — finds the cached
seed matching, skips regeneration, and likewise returns no output with the
state unchanged: the allocation failure is permanent for seed s within the
process. -/
theorem C10_alloc_failure_permanent (mo bo mo2 bo2 : Nat → Bool)
    (ks : List Nat → Nat → Nat) (sha : List Nat → List Nat)
    (junk junk2 : PrecomputedMatrices) (st : Cached.TensCache)
    (s x y : List Nat)
    (hmiss : ¬(st.cacheInitialized = true ∧ st.cachedSeed = s))
    (hfail : Cached.precompute_matrices mo ks s junk = none ∨
             Cached.init_hash_buffers bo = false) :
    (Cached.tens_hash_step mo bo ks sha st s x junk).1 = none ∧
    (Cached.tens_hash_step mo bo ks sha st s x junk).2.cacheInitialized =
      true ∧
    (Cached.tens_hash_step mo bo ks sha st s x junk).2.cachedSeed = s ∧
    (Cached.tens_hash_step mo2 bo2 ks sha
      (Cached.tens_hash_step mo bo ks sha st s x junk).2 s y junk2).1 =
      none ∧
    (Cached.tens_hash_step mo2 bo2 ks sha
      (Cached.tens_hash_step mo bo ks sha st s x junk).2 s y junk2).2 =
      (Cached.tens_hash_step mo bo ks sha st s x junk).2 := by
  have hstate : (Cached.tens_hash_step mo bo ks sha st s x junk).2 =
      ⟨true, s, Cached.precompute_matrices mo ks s junk,
       Cached.init_hash_buffers bo⟩ := by
    rw [tens_hash_step_state, if_neg hmiss]
  have hout : ∀ (mo' bo' : Nat → Bool) (inp : List Nat)
      (junk' : PrecomputedMatrices),
      (Cached.tens_hash_step mo' bo' ks sha
        ⟨true, s, Cached.precompute_matrices mo ks s junk,
         Cached.init_hash_buffers bo⟩ s inp junk').1 = none := by
    intro mo' bo' inp junk'
    unfold Cached.tens_hash_step
    rw [if_pos ⟨rfl, rfl⟩]
    dsimp only
    rcases hfail with hf | hf
    · rw [hf]
    · rw [hf]
      cases Cached.precompute_matrices mo ks s junk <;> rfl
  have h1 : (Cached.tens_hash_step mo bo ks sha st s x junk).1 = none := by
    unfold Cached.tens_hash_step
    rw [if_neg hmiss]
    dsimp only
    rcases hfail with hf | hf
    · rw [hf]
    · rw [hf]
      cases Cached.precompute_matrices mo ks s junk <;> rfl
  refine ⟨h1, by rw [hstate], by rw [hstate], by rw [hstate]; exact hout mo2 bo2 y junk2, ?_⟩
  rw [hstate, tens_hash_step_state, if_pos ⟨rfl, rfl⟩]

/-- Closed witness for `C10_alloc_failure_permanent`: from the cold cache, a
call whose scratch-buffer allocation fails produces no output and pins the
failure for that seed, even though the follow-up call's allocations would
all succeed. -/
theorem C10_alloc_failure_permanent_witness :
    (Cached.tens_hash_step allocAlways (fun _ => false) ks0 sha0
      Cached.coldCache (List.replicate 32 5) (List.replicate 32 1)
      junk0).1 = none ∧
    (Cached.tens_hash_step allocAlways (fun _ => false) ks0 sha0
      Cached.coldCache (List.replicate 32 5) (List.replicate 32 1)
      junk0).2.cacheInitialized = true ∧
    (Cached.tens_hash_step allocAlways (fun _ => false) ks0 sha0
      Cached.coldCache (List.replicate 32 5) (List.replicate 32 1)
      junk0).2.cachedSeed = List.replicate 32 5 ∧
    (Cached.tens_hash_step allocAlways allocAlways ks0 sha0
      (Cached.tens_hash_step allocAlways (fun _ => false) ks0 sha0
        Cached.coldCache (List.replicate 32 5) (List.replicate 32 1)
        junk0).2 (List.replicate 32 5) (List.replicate 32 9) junk0).1 =
      none ∧
    (Cached.tens_hash_step allocAlways allocAlways ks0 sha0
      (Cached.tens_hash_step allocAlways (fun _ => false) ks0 sha0
        Cached.coldCache (List.replicate 32 5) (List.replicate 32 1)
        junk0).2 (List.replicate 32 5) (List.replicate 32 9) junk0).2 =
      (Cached.tens_hash_step allocAlways (fun _ => false) ks0 sha0
        Cached.coldCache (List.replicate 32 5) (List.replicate 32 1)
        junk0).2 :=
  C10_alloc_failure_permanent allocAlways (fun _ => false) allocAlways
    allocAlways ks0 sha0 junk0 junk0 Cached.coldCache
    (List.replicate 32 5) (List.replicate 32 1) (List.replicate 32 9)
    (by intro h; exact absurd h.1 (by decide))
    (Or.inr (by decide))

/-- C3: Claim (from the spec): building a MatrixSet either yields matrices
fully filled from the seed-derived keystream or fails with nothing returned;
a MatrixSet whose buffers were allocated but never filled is never returned.
The cached variant's code violates this: when every structure allocation
succeeds but the keystream staging buffer allocation inside
`generate_all_matrices` fails (allocation number `numStructAllocs`), that
routine silently returns without filling anything, and `precompute_matrices`
still returns the non-null MatrixSet holding uninitialized memory.  This
closed theorem evaluates the code at that failing allocation sequence: the
call returns `some junk0` — the unfilled junk contents, which differ from
the keystream-filled matrices. -/
theorem C3_unfilled_matrixset_returned :
    Cached.precompute_matrices
      (fun i => decide (i ≠ Cached.numStructAllocs)) ks0
      (List.replicate 32 0) junk0 = some junk0 ∧
    junk0 ≠ Cached.generate_all_matrices ks0 (List.replicate 32 0) := by
  constructor
  · have h1 : ((List.range Cached.numStructAllocs).all
        fun i => decide (i ≠ Cached.numStructAllocs)) = true := by
      rw [List.all_eq_true]
      intro x hx
      have hlt := List.mem_range.mp hx
      simp only [decide_eq_true_eq]
      omega
    unfold Cached.precompute_matrices
    rw [if_pos h1, if_neg (by simp)]
  · intro h
    have hlen : junk0.expand_mat.length =
        (Cached.generate_all_matrices ks0
          (List.replicate 32 0)).expand_mat.length :=
      congrArg (fun m => m.expand_mat.length) h
    have hg : (Cached.generate_all_matrices ks0
        (List.replicate 32 0)).expand_mat.length = HIDDEN := by
      simp only [Cached.generate_all_matrices]
      rw [List.length_map, List.length_range]
    rw [hg] at hlen
    have h0 : junk0.expand_mat.length = 0 := rfl
    rw [h0] at hlen
    exact absurd hlen (by decide)

/-- C8 counterexample: the claim says a construction-time allocation failure
propagates to the immediate caller of the core hashing operation as a typed
failure result and that process exit happens only at the CLI boundary,
never inside the core hash functions.  In the standalone variant the core
one-shot `tens_hash` itself calls `exit(1)` when `precompute_matrices`
returns NULL: with every allocation failing, the call terminates the
process instead of returning a failure result. -/
theorem C8_counterexample_core_exits :
    TestPow.tens_hash (fun _ => false) allocAlways ks0 sha0
      (List.replicate 32 0) (List.replicate 32 0) =
      CallOutcome.exited 1 := by
  have h : ¬(((List.range TestPow.numStructAllocs).all
      fun _ => false) = true) := by
    intro hall
    have h0 := List.all_eq_true.mp hall 0
      (List.mem_range.mpr (by decide))
    exact absurd h0 (by decide)
  have hpre : TestPow.precompute_matrices (fun _ => false) ks0
      (List.replicate 32 0) = CallOutcome.ok none := by
    unfold TestPow.precompute_matrices
    rw [if_neg h]
  unfold TestPow.tens_hash
  rw [hpre]

/-- C8 amended: structure allocation failures inside `precompute_matrices`
and `init_hash_buffers` do propagate as NULL to their immediate caller (in
both Mode-A variants), and the cached `tens_hash` then returns silently
with no output; but the standalone one-shot `tens_hash` reacts to a NULL
from either constructor by terminating the process with exit code 1, and a
keystream staging allocation failure inside `generate_matrices` likewise
terminates the process from within matrix construction — so process exit
does occur inside the core hash functions of the standalone variant, not
only at the CLI boundary. -/
theorem C8_amended_null_propagates_but_oneshot_exits (mo bo : Nat → Bool)
    (ks : List Nat → Nat → Nat) (sha : List Nat → List Nat)
    (seed input : List Nat) (junk : PrecomputedMatrices)
    (st : Cached.TensCache) :
    (¬(((List.range TestPow.numStructAllocs).all mo) = true) →
      TestPow.precompute_matrices mo ks seed = CallOutcome.ok none ∧
      TestPow.tens_hash mo bo ks sha seed input = CallOutcome.exited 1) ∧
    (¬(((List.range 4).all bo) = true) →
      TestPow.init_hash_buffers bo = false) ∧
    (((List.range TestPow.numStructAllocs).all mo) = true →
      mo TestPow.numStructAllocs = false →
      TestPow.tens_hash mo bo ks sha seed input = CallOutcome.exited 1) ∧
    (((List.range TestPow.numStructAllocs).all mo) = true →
      mo TestPow.numStructAllocs = true →
      TestPow.init_hash_buffers bo = false →
      TestPow.tens_hash mo bo ks sha seed input = CallOutcome.exited 1) ∧
    (¬(((List.range Cached.numStructAllocs).all mo) = true) →
      Cached.precompute_matrices mo ks seed junk = none ∧
      (¬(st.cacheInitialized = true ∧ st.cachedSeed = seed) →
        (Cached.tens_hash_step mo bo ks sha st seed input junk).1 =
          none)) := by
  refine ⟨fun h1 => ?_, fun h2 => ?_, fun h3 h4 => ?_, fun h5 h6 h7 => ?_,
    fun h8 => ?_⟩
  · have hpre : TestPow.precompute_matrices mo ks seed =
        CallOutcome.ok none := by
      unfold TestPow.precompute_matrices
      rw [if_neg h1]
    refine ⟨hpre, ?_⟩
    unfold TestPow.tens_hash
    rw [hpre]
  · unfold TestPow.init_hash_buffers
    cases hb : (List.range 4).all bo
    · rfl
    · exact absurd hb h2
  · have hpre : TestPow.precompute_matrices mo ks seed =
        CallOutcome.exited 1 := by
      unfold TestPow.precompute_matrices
      rw [if_pos h3, if_neg (by rw [h4]; exact Bool.false_ne_true)]
    unfold TestPow.tens_hash
    rw [hpre]
  · have hpre : TestPow.precompute_matrices mo ks seed =
        CallOutcome.ok (some (TestPow.generate_matrices ks seed)) := by
      unfold TestPow.precompute_matrices
      rw [if_pos h5, if_pos h6]
    unfold TestPow.tens_hash
    rw [hpre, h7]
    rfl
  · have hpre : Cached.precompute_matrices mo ks seed junk = none := by
      unfold Cached.precompute_matrices
      rw [if_neg h8]
    refine ⟨hpre, fun hmiss => ?_⟩
    unfold Cached.tens_hash_step
    rw [if_neg hmiss]
    dsimp only
    rw [hpre]

/-- Closed witness for `C8_amended_null_propagates_but_oneshot_exits`: with
an allocation oracle failing the very first structure allocation, the
standalone `precompute_matrices` reports NULL to its caller and the one-shot
`tens_hash` turns it into process exit 1. -/
theorem C8_amended_null_propagates_but_oneshot_exits_witness :
    TestPow.precompute_matrices (fun i => decide (i ≠ 0)) ks0
      (List.replicate 32 4) = CallOutcome.ok none ∧
    TestPow.tens_hash (fun i => decide (i ≠ 0)) allocAlways ks0 sha0
      (List.replicate 32 4) (List.replicate 32 6) =
      CallOutcome.exited 1 :=
  (C8_amended_null_propagates_but_oneshot_exits (fun i => decide (i ≠ 0))
    allocAlways ks0 sha0 (List.replicate 32 4) (List.replicate 32 6)
    junk0 Cached.coldCache).1 (by decide)

/-! Bridging lemmas between the two Mode-A variants: the layer arithmetic,
the keystream slicing and the full forward pass coincide. -/

theorem matrix_multiply_variants_eq :
    TestPow.matrix_multiply = Cached.matrix_multiply :=
  rfl

theorem generate_matrices_variants_eq (ks : List Nat → Nat → Nat)
    (seed : List Nat) :
    TestPow.generate_matrices ks seed = Cached.generate_all_matrices ks seed :=
  rfl

theorem tens_hash_precomputed_variants_eq (m : PrecomputedMatrices)
    (sha : List Nat → List Nat) (input : List Nat) :
    TestPow.tens_hash_precomputed m sha input =
      Cached.tens_hash_precomputed m sha input :=
  rfl

theorem testpow_precompute_matrices_allocAlways (ks : List Nat → Nat → Nat)
    (seed : List Nat) :
    TestPow.precompute_matrices allocAlways ks seed =
      CallOutcome.ok (some (TestPow.generate_matrices ks seed)) := by
  have h1 : ((List.range TestPow.numStructAllocs).all allocAlways) = true :=
    List.all_eq_true.mpr fun x _ => rfl
  unfold TestPow.precompute_matrices
  rw [if_pos h1,
    if_pos (show allocAlways TestPow.numStructAllocs = true from rfl)]

theorem testpow_init_hash_buffers_allocAlways :
    TestPow.init_hash_buffers allocAlways = true := by
  decide

/-- C4: For every (seed, input) pair, the one-shot entry point — which
builds a transient MatrixSet and ScratchBuffers, evaluates exactly once and
releases them, with no caching — returns the same 32-byte digest as the
cached-path Evaluate for the same mode: both deliver the pure forward pass
over the seed's keystream-generated matrices. -/
theorem C4_oneshot_equals_cached (ks : List Nat → Nat → Nat)
    (sha : List Nat → List Nat) (junk : PrecomputedMatrices)
    (st : Cached.TensCache) (seed input : List Nat)
    (hst : Cached.CacheGood ks st) :
    TestPow.tens_hash allocAlways allocAlways ks sha seed input =
      CallOutcome.ok (Cached.tens_hash_pure ks sha seed input) ∧
    (Cached.tens_hash_step allocAlways allocAlways ks sha st seed input
      junk).1 = some (Cached.tens_hash_pure ks sha seed input) := by
  constructor
  · unfold TestPow.tens_hash
    rw [testpow_precompute_matrices_allocAlways,
      testpow_init_hash_buffers_allocAlways]
    rfl
  · exact tens_hash_step_allocAlways_out ks sha st seed input junk hst

/-- Closed witness for `C4_oneshot_equals_cached`: one-shot and cold-cache
evaluation of the same concrete (seed, input) both produce the same pure
digest. -/
theorem C4_oneshot_equals_cached_witness :
    TestPow.tens_hash allocAlways allocAlways ks0 sha0
      (List.replicate 32 8) (List.replicate 32 2) =
      CallOutcome.ok (Cached.tens_hash_pure ks0 sha0
        (List.replicate 32 8) (List.replicate 32 2)) ∧
    (Cached.tens_hash_step allocAlways allocAlways ks0 sha0
      Cached.coldCache (List.replicate 32 8) (List.replicate 32 2)
      junk0).1 = some (Cached.tens_hash_pure ks0 sha0
        (List.replicate 32 8) (List.replicate 32 2)) :=
  C4_oneshot_equals_cached ks0 sha0 junk0 Cached.coldCache
    (List.replicate 32 8) (List.replicate 32 2) (coldCache_good ks0)

/-! Lemmas about the hex decoding loop. -/

theorem parse_hex_from_ret (hex : List Char) :
    ∀ (rem i : Nat) (out : List Nat),
      ((TestPow.parse_hex_from hex out i rem).1 = 0 ↔
        ∀ t, t < rem →
          0 ≤ TestPow.hexchar_to_int (hex.getD (2 * (i + t)) ' ') ∧
          0 ≤ TestPow.hexchar_to_int (hex.getD (2 * (i + t) + 1) ' ')) ∧
      ((TestPow.parse_hex_from hex out i rem).1 = 0 ∨
       (TestPow.parse_hex_from hex out i rem).1 = -1) := by
  intro rem
  induction rem with
  | zero =>
      intro i out
      refine ⟨?_, Or.inl rfl⟩
      simp [TestPow.parse_hex_from]
  | succ n ih =>
      intro i out
      by_cases hv : TestPow.hexchar_to_int (hex.getD (2 * i) ' ') < 0 ∨
          TestPow.hexchar_to_int (hex.getD (2 * i + 1) ' ') < 0
      · have hres : TestPow.parse_hex_from hex out i (n + 1) = (-1, out) := by
          unfold TestPow.parse_hex_from
          rw [if_pos hv]
        rw [hres]
        refine ⟨?_, Or.inr rfl⟩
        constructor
        · intro h0
          exact absurd h0 (by norm_num)
        · intro hall
          have h0 := hall 0 (Nat.succ_pos n)
          rw [Nat.add_zero] at h0
          rcases hv with hv | hv <;> omega
      · have hres : TestPow.parse_hex_from hex out i (n + 1) =
            TestPow.parse_hex_from hex
              (out.set i
                ((TestPow.hexchar_to_int (hex.getD (2 * i) ' ')).toNat <<< 4 |||
                 (TestPow.hexchar_to_int (hex.getD (2 * i + 1) ' ')).toNat))
              (i + 1) n := by
          conv_lhs => rw [TestPow.parse_hex_from]
          rw [if_neg hv]
        rw [hres]
        obtain ⟨ihiff, ihcases⟩ := ih (i + 1) (out.set i _)
        refine ⟨?_, ihcases⟩
        rw [ihiff]
        constructor
        · intro hall t ht
          rcases Nat.eq_zero_or_pos t with rfl | htpos
          · rw [Nat.add_zero]
            rcases not_or.mp hv with ⟨hv1, hv2⟩
            omega
          · have := hall (t - 1) (by omega)
            have harg : i + 1 + (t - 1) = i + t := by omega
            rw [harg] at this
            exact this
        · intro hall t ht
          have := hall (t + 1) (by omega)
          have harg : i + (t + 1) = i + 1 + t := by omega
          rw [harg] at this
          exact this

/-- C9 counterexample: the claim says that on any decode error the output
buffer is never left partially filled.  Decoding the 4-character string
"aazz" into a 2-byte buffer initialized to zero fails (z is not a hex
digit) — but the first pair has already been stored: the call returns -1
with the buffer holding [170, 0], not its original contents. -/
theorem C9_partial_buffer_on_error_counterexample :
    (TestPow.parse_hex ['a', 'a', 'z', 'z'] [0, 0] 2).1 = -1 ∧
    (TestPow.parse_hex ['a', 'a', 'z', 'z'] [0, 0] 2).2 = [170, 0] ∧
    [(170 : Nat), 0] ≠ [0, 0] := by
  decide

/-- C9 amended: the hex decoder returns success (0) exactly when the
string's length equals twice the output byte length and every character is
a valid hexadecimal digit; the only other outcome is the single error code
-1; and a length violation leaves the output buffer untouched.  (Unlike the
original claim, an invalid digit encountered after valid pairs leaves those
already-decoded bytes in the buffer, as the counterexample shows.) -/
theorem C9_hex_decode_success_iff (hex : List Char) (out : List Nat)
    (out_len : Nat) :
    ((TestPow.parse_hex hex out out_len).1 = 0 ↔
      hex.length = out_len * 2 ∧
      ∀ k, k < hex.length →
        0 ≤ TestPow.hexchar_to_int (hex.getD k ' ')) ∧
    ((TestPow.parse_hex hex out out_len).1 = 0 ∨
     (TestPow.parse_hex hex out out_len).1 = -1) ∧
    (hex.length ≠ out_len * 2 →
      TestPow.parse_hex hex out out_len = (-1, out)) := by
  by_cases hlen : hex.length = out_len * 2
  · have hres : TestPow.parse_hex hex out out_len =
        TestPow.parse_hex_from hex out 0 out_len := by
      unfold TestPow.parse_hex
      rw [if_neg (by omega)]
    obtain ⟨hiff, hcases⟩ := parse_hex_from_ret hex out_len 0 out
    refine ⟨?_, by rw [hres]; exact hcases, fun h => absurd hlen h⟩
    rw [hres, hiff]
    constructor
    · intro hall
      refine ⟨hlen, fun k hk => ?_⟩
      have hk2 : k / 2 < out_len := by omega
      have := hall (k / 2) hk2
      have hcase : k = 2 * (0 + k / 2) ∨ k = 2 * (0 + k / 2) + 1 := by
        omega
      rcases hcase with hc | hc
      · rw [hc]
        exact this.1
      · rw [hc]
        exact this.2
    · intro hall t ht
      constructor
      · exact hall.2 (2 * (0 + t)) (by omega)
      · exact hall.2 (2 * (0 + t) + 1) (by omega)
  · have hres : TestPow.parse_hex hex out out_len = (-1, out) := by
      unfold TestPow.parse_hex
      rw [if_pos hlen]
    rw [hres]
    refine ⟨?_, Or.inr rfl, fun _ => rfl⟩
    constructor
    · intro h0
      exact absurd h0 (by norm_num)
    · intro hall
      exact absurd hall.1 hlen

/-- Closed witness for `C9_hex_decode_success_iff` at the concrete
two-character string "ab" decoded into one byte. -/
theorem C9_hex_decode_success_iff_witness :
    ((TestPow.parse_hex ['a', 'b'] [0] 1).1 = 0 ↔
      (['a', 'b'] : List Char).length = 1 * 2 ∧
      ∀ k, k < (['a', 'b'] : List Char).length →
        0 ≤ TestPow.hexchar_to_int ((['a', 'b'] : List Char).getD k ' ')) :=
  (C9_hex_decode_success_iff ['a', 'b'] [0] 1).1

/-! Helper lemmas for the Mode-B byte/bit-order claim. -/

theorem range_map_getD_rev {α : Type} (l : List α) (n : Nat) (d : α)
    (h : l.length = n) :
    (List.range n).map (fun i => l.getD (n - 1 - i) d) = l.reverse := by
  apply List.ext_getElem
  · simp [h]
  · intro i h1 h2
    have hin : i < n := by simpa using h1
    have hb : n - 1 - i < l.length := by omega
    rw [List.getElem_map, List.getElem_range, List.getElem_reverse]
    rw [List.getD_eq_getElem?_getD, List.getElem?_eq_getElem hb]
    have harg : l.length - 1 - i = n - 1 - i := by omega
    simp [harg]

theorem getD_set_self (l : List Nat) (k v : Nat) (h : k < l.length) :
    (l.set k v).getD k 0 = v := by
  rw [List.getD_eq_getElem?_getD, List.getElem?_set_self h]
  rfl

theorem getD_set_ne (l : List Nat) (k k' v : Nat) (h : k ≠ k') :
    (l.set k v).getD k' 0 = l.getD k' 0 := by
  rw [List.getD_eq_getElem?_getD, List.getElem?_set_ne h,
    List.getD_eq_getElem?_getD]

theorem getD_replicate_zero (n k : Nat) (h : k < n) :
    (List.replicate n (0 : Nat)).getD k 0 = 0 := by
  rw [List.getD_eq_getElem?_getD,
    List.getElem?_eq_getElem (by simpa using h)]
  simp

theorem shift_and_one_eq_testBit (b k : Nat) :
    (((b >>> k) &&& 1 : Nat) : Int) =
      if Nat.testBit b k then 1 else 0 := by
  rw [Nat.and_one_is_mod, Nat.shiftRight_eq_div_pow, Nat.testBit_to_div_mod]
  rcases Nat.mod_two_eq_zero_or_one (b / 2 ^ k) with h | h <;> rw [h] <;> simp

theorem foldl_length_invariant {α : Type} (f : List Nat → α → List Nat)
    (hf : ∀ out a, (f out a).length = out.length) :
    ∀ (l : List α) (init : List Nat),
      (l.foldl f init).length = init.length := by
  intro l
  induction l with
  | nil => intro init; rfl
  | cons a t ih =>
      intro init
      rw [List.foldl_cons, ih, hf]

theorem pack_bits_length (bits : List Int) :
    (ModeB.pack_bits bits).length = IN_SIZE := by
  unfold ModeB.pack_bits
  rw [foldl_length_invariant]
  · exact List.length_replicate IN_SIZE 0
  · intro out i
    by_cases hbi : bits.getD i 0 ≠ 0
    · rw [if_pos hbi, List.length_set]
    · rw [if_neg hbi]

theorem packStep_length (bits : List Int) (out : List Nat) (a : Nat) :
    (packStep bits out a).length = out.length := by
  unfold packStep
  by_cases hb : bits.getD a 0 ≠ 0
  · rw [if_pos hb, List.length_set]
  · rw [if_neg hb]

theorem packStep_prefix (bits : List Int) :
    ∀ n, n ≤ 256 → ∀ k, k < 32 →
      ((List.range n).foldl (packStep bits)
        (List.replicate 32 0)).getD k 0 < 256 ∧
      (∀ j, j < 8 →
        (Nat.testBit (((List.range n).foldl (packStep bits)
            (List.replicate 32 0)).getD k 0) (7 - j) = true ↔
          (8 * k + j < n ∧ bits.getD (8 * k + j) 0 ≠ 0))) := by
  intro n
  induction n with
  | zero =>
      intro _ k hk
      rw [List.range_zero, List.foldl_nil, getD_replicate_zero 32 k hk]
      refine ⟨by norm_num, fun j hj => ?_⟩
      simp only [Nat.zero_testBit]
      constructor
      · intro h
        exact absurd h (by decide)
      · rintro ⟨habs, _⟩
        omega
  | succ m ih =>
      intro hn k hk
      set prev := (List.range m).foldl (packStep bits)
        (List.replicate 32 0) with hprev
      have ihm : ∀ k', k' < 32 →
          prev.getD k' 0 < 256 ∧
          (∀ j, j < 8 → (Nat.testBit (prev.getD k' 0) (7 - j) = true ↔
            (8 * k' + j < m ∧ bits.getD (8 * k' + j) 0 ≠ 0))) :=
        fun k' hk' => ih (by omega) k' hk'
      have hprevlen : prev.length = 32 := by
        rw [hprev, foldl_length_invariant (packStep bits)
          (packStep_length bits)]
        exact List.length_replicate 32 0
      have hsplit : (List.range (m + 1)).foldl (packStep bits)
          (List.replicate 32 0) = packStep bits prev m := by
        rw [List.range_succ, List.foldl_append, List.foldl_cons,
          List.foldl_nil]
      rw [hsplit]
      unfold packStep
      by_cases hb : bits.getD m 0 ≠ 0
      · rw [if_pos hb]
        by_cases hkm : k = m / 8
        · subst hkm
          rw [getD_set_self _ _ _ (by omega)]
          constructor
          · have h1 : prev.getD (m / 8) 0 < 256 :=
              (ihm (m / 8) (by omega)).1
            have h2 : (1 <<< (7 - m % 8)) < 256 := by
              rw [Nat.one_shiftLeft]
              calc 2 ^ (7 - m % 8) ≤ 2 ^ 7 :=
                    Nat.pow_le_pow_right (by norm_num) (by omega)
                _ < 256 := by norm_num
            have h256 : (256 : Nat) = 2 ^ 8 := by norm_num
            rw [h256]
            exact Nat.or_lt_two_pow (h256 ▸ h1) (h256 ▸ h2)
          · intro j hj
            have hfirst := (ihm (m / 8) (by omega)).2 j hj
            rw [Nat.testBit_or, Nat.one_shiftLeft, Nat.testBit_two_pow,
              Bool.or_eq_true, hfirst, decide_eq_true_eq]
            by_cases hjJ : j = m % 8
            · subst hjJ
              constructor
              · intro _
                refine ⟨by omega, ?_⟩
                have harg : 8 * (m / 8) + m % 8 = m := by omega
                rw [harg]
                exact hb
              · intro _
                exact Or.inr rfl
            · have h7 : 7 - m % 8 ≠ 7 - j := by omega
              constructor
              · rintro (⟨hlt, hne⟩ | habs)
                · exact ⟨by omega, hne⟩
                · exact absurd habs h7
              · rintro ⟨hlt, hne⟩
                refine Or.inl ⟨by omega, hne⟩
        · rw [getD_set_ne _ _ _ _ fun hx => hkm hx.symm]
          refine ⟨(ihm k hk).1, fun j hj => ?_⟩
          rw [(ihm k hk).2 j hj]
          constructor
          · rintro ⟨hlt, hne⟩
            exact ⟨by omega, hne⟩
          · rintro ⟨hlt, hne⟩
            refine ⟨by omega, hne⟩
      · rw [if_neg hb]
        have hb0 : bits.getD m 0 = 0 := not_not.mp hb
        refine ⟨(ihm k hk).1, fun j hj => ?_⟩
        rw [(ihm k hk).2 j hj]
        constructor
        · rintro ⟨hlt, hne⟩
          exact ⟨by omega, hne⟩
        · rintro ⟨hlt, hne⟩
          by_cases heq : 8 * k + j = m
          · rw [heq] at hne
            exact absurd hb0 hne
          · exact ⟨by omega, hne⟩

theorem pack_bits_testBit (bits : List Int) (k j : Nat) (hk : k < 32)
    (hj : j < 8) :
    (ModeB.pack_bits bits).getD k 0 < 256 ∧
    (Nat.testBit ((ModeB.pack_bits bits).getD k 0) (7 - j) = true ↔
      bits.getD (8 * k + j) 0 ≠ 0) := by
  have heq : ModeB.pack_bits bits =
      (List.range 256).foldl (packStep bits) (List.replicate 32 0) := rfl
  have h := packStep_prefix bits 256 (by norm_num) k hk
  rw [heq]
  refine ⟨h.1, ?_⟩
  rw [h.2 j hj]
  constructor
  · exact fun hr => hr.2
  · exact fun hbne => ⟨by omega, hbne⟩

theorem unpack_loop_eq_spec (bytes : List Nat) :
    (((List.range ModeB.INPUT_BITS).map fun t =>
      (((bytes.getD (t / 8) 0) >>> (7 - t % 8)) &&& 1 : Nat)) : List Int) =
    ModeB.unpackBitsSpec bytes := by
  unfold ModeB.unpackBitsSpec
  apply List.map_congr_left
  intro t _
  exact shift_and_one_eq_testBit (bytes.getD (t / 8) 0) (7 - t % 8)

theorem modeB_hash_length (ctx : ModeB.TensHashContext)
    (input : List Nat) :
    (ModeB.tens_hash_precomputed ctx input).length = 32 := by
  unfold ModeB.tens_hash_precomputed
  dsimp only
  rw [List.length_map, List.length_range]
  rfl

/-- C7: In Mode B, for every 32-byte input the evaluator byte-reverses the
input before unpacking it into 256 bits, packs the final 256 result bits
most-significant-bit-first into 32 bytes, and byte-reverses that packed
result before returning it: the full evaluation factors as
reverse-of-pack-of-cascade-of-unpack-of-reverse, where the unpack reads bit
7 - t mod 8 of byte t/8 (most-significant-bit-first), and the packed byte k
carries bit 8k+j of the result in binary position 7 - j. -/
theorem C7_mode_b_byte_order (ctx : ModeB.TensHashContext)
    (input : List Nat) (hlen : input.length = 32) :
    ModeB.tens_hash_precomputed ctx input =
      (ModeB.pack_bits (ModeB.run_layers ctx
        (ModeB.unpackBitsSpec input.reverse))).reverse ∧
    (∀ bits k j, k < 32 → j < 8 →
      (ModeB.pack_bits bits).getD k 0 < 256 ∧
      (Nat.testBit ((ModeB.pack_bits bits).getD k 0) (7 - j) = true ↔
        bits.getD (8 * k + j) 0 ≠ 0)) ∧
    (ModeB.tens_hash_precomputed ctx input).length = 32 := by
  refine ⟨?_, fun bits k j hk hj => pack_bits_testBit bits k j hk hj,
    modeB_hash_length ctx input⟩
  unfold ModeB.tens_hash_precomputed
  dsimp only
  rw [range_map_getD_rev input IN_SIZE 0 hlen]
  rw [unpack_loop_eq_spec input.reverse]
  rw [range_map_getD_rev _ IN_SIZE 0
    (pack_bits_length (ModeB.run_layers ctx
      (ModeB.unpackBitsSpec input.reverse)))]

/-- Closed witness for `C7_mode_b_byte_order` at the empty-matrix context
and the all-zero input. -/
theorem C7_mode_b_byte_order_witness :
    ModeB.tens_hash_precomputed ⟨[], [], []⟩ (List.replicate 32 0) =
      (ModeB.pack_bits (ModeB.run_layers ⟨[], [], []⟩
        (ModeB.unpackBitsSpec (List.replicate 32 0).reverse))).reverse :=
  (C7_mode_b_byte_order ⟨[], [], []⟩ (List.replicate 32 0) rfl).1
